import Mathlib

/-!
Verification of `prepare_full_dataset.py` from yolo-face-parts-detector.

The script converts several facial-landmark datasets (Helen, Pexels, AFW,
Menpo2D, LaPa, FASSEG) into a unified YOLO-format detection corpus.  We embed
the pure data transformations of the script — the landmark-to-bounding-box
normalization, the per-dataset part tables, the skip/filter rules, the
train/val splitting and the label-file aggregation — as Lean functions over
rationals and lists, and prove the specified properties about them.

Coordinates are modelled as rationals (the Python floats carry exact decimal
annotation values through sums, halvings and divisions in the cases at issue);
file names are modelled as `String` or `List Char`, file contents as lists of
lines.
-/

namespace FaceParts

/-- Minimum of a list of rationals (head-seeded; only used on nonempty lists,
mirroring `min()` over a nonempty Python sequence). -/
def listMin : List ℚ → ℚ
  | [] => 0
  | [a] => a
  | a :: b :: rest => min a (listMin (b :: rest))

/-- Maximum of a list of rationals (head-seeded; only used on nonempty lists,
mirroring `max()` over a nonempty Python sequence). -/
def listMax : List ℚ → ℚ
  | [] => 0
  | [a] => a
  | a :: b :: rest => max a (listMax (b :: rest))

/-- A normalized YOLO bounding-box record: class id, center, width, height. -/
structure YoloBox where
  classId : Nat
  x : ℚ
  y : ℚ
  w : ℚ
  h : ℚ
deriving DecidableEq, Repr

/-- Modelled from the spec: `points_to_yolo` lives in `utils.py`, which is not
part of the provided sources (only its call sites are).  Per the spec's
Geometry Normalizer contract: given a contour (list of pixel points), a class
id and the image height/width, compute the axis-aligned bounding box of the
contour and return it in normalized YOLO form
`(class_id, (x_min+x_max)/2/W, (y_min+y_max)/2/H, (x_max-x_min)/W, (y_max-y_min)/H)`.
The argument order `(contour, class id, img_h, img_w)` mirrors the call sites
`points_to_yolo(img_labels, contour, part_id, img_h, img_w)`. -/
def points_to_yolo (contour : List (ℚ × ℚ)) (classId : Nat) (imgH imgW : ℚ) :
    YoloBox :=
  let xs := contour.map Prod.fst
  let ys := contour.map Prod.snd
  let xmin := listMin xs
  let xmax := listMax xs
  let ymin := listMin ys
  let ymax := listMax ys
  ⟨classId, (xmin + xmax) / 2 / imgW, (ymin + ymax) / 2 / imgH,
    (xmax - xmin) / imgW, (ymax - ymin) / imgH⟩

/-! Part tables and class ids

The script defines one point-index table per landmark-converting dataset
(`part_points_helen`, `part_points_afw`, `part_points_menpo` — whose
`'semifrontal'` entry is `part_points_afw` itself — and `part_points_lapa`).
Python dicts keep insertion order, so a table is embedded as an association
list in source order; `range(a, b)` becomes `List.range' a (b - a)`.  All four
processing loops iterate `enumerate(use_parts)` with
`use_parts = [p for p in part_points_helen.keys() if p != "jaw"]`. -/

/-- The Helen part table (194 landmarks). -/
def part_points_helen : List (String × List (List Nat)) :=
  [("jaw", [List.range' 0 41]),
   ("eye", [List.range' 114 20, List.range' 134 20]),
   ("nose", [List.range' 41 17 ++ [154, 174]]),
   ("mouth", [List.range' 58 56]),
   ("eyebrow", [List.range' 154 20, List.range' 174 20])]

/-- The AFW part table (68 landmarks); also Menpo2D's `'semifrontal'` table. -/
def part_points_afw : List (String × List (List Nat)) :=
  [("jaw", [List.range' 0 17]),
   ("eye", [List.range' 36 6, List.range' 42 6]),
   ("nose", [List.range' 27 9 ++ [21, 22]]),
   ("mouth", [List.range' 48 20]),
   ("eyebrow", [List.range' 17 5, List.range' 22 5])]

/-- The Menpo2D `'profile'` part table (39 landmarks). -/
def part_points_menpo_profile : List (String × List (List Nat)) :=
  [("jaw", [List.range' 0 12]),
   ("eye", [List.range' 22 5]),
   ("nose", [List.range' 16 6]),
   ("mouth", [List.range' 27 12]),
   ("eyebrow", [List.range' 12 4])]

/-- The LaPa part table (106 landmarks; 104 contour points used). -/
def part_points_lapa : List (String × List (List Nat)) :=
  [("jaw", [List.range' 0 33]),
   ("eyebrow", [List.range' 33 9, List.range' 42 9]),
   ("nose", [List.range' 51 15]),
   ("eye", [List.range' 66 9, List.range' 75 9]),
   ("mouth", [List.range' 84 20])]

/-- The list `use_parts = [p for p in part_points_helen.keys() if p != "jaw"]`. -/
def use_parts : List String :=
  (part_points_helen.map Prod.fst).filter (fun p => p ≠ "jaw")

/-- The class id a dataset pass assigns to a part name: its position in the
`enumerate(use_parts)` iteration (`none` for names outside `use_parts`).
The same `use_parts` list drives the Helen, AFW, Menpo2D and LaPa loops. -/
def classIdOf (partName : String) : Option Nat :=
  (use_parts.enum.find? (fun ip => ip.2 = partName)).map Prod.fst

/-- The `names` mapping written to `data.yaml`:
`{i: p for i, p in enumerate(use_parts)}`. -/
def dataYamlNames : List (Nat × String) := use_parts.enum

/-! Label aggregation

Each processing loop builds `img_labels` by appending one row per contour
(`points_to_yolo(img_labels, contour, part_id, img_h, img_w)` appends the
normalized box to the dataframe — modelled from the spec's Label Aggregator
contract, `utils.py` being absent from the sources), iterating
`enumerate(use_parts)` on the outside and the part's contour index lists on
the inside; the file is then written once as `img_labels.round(6).to_csv(...,
header=False, index=False, sep=" ")`. -/

/-- The contour for one index list: `[lines[i] for i in idxs]` as points. -/
def contourAt (pts : List (ℚ × ℚ)) (idxs : List Nat) : List (ℚ × ℚ) :=
  idxs.filterMap (fun i => pts.get? i)

/-- Look a part name up in a part table (`table[part_name]`). -/
def lookupContours (table : List (String × List (List Nat)))
    (name : String) : List (List Nat) :=
  ((table.find? (fun e => e.1 = name)).map Prod.snd).getD []

/-- Round a rational to 6 decimal places (`DataFrame.round(6)`). -/
def round6 (q : ℚ) : ℚ := ((round (q * 1000000) : ℤ) : ℚ) / 1000000

/-- Round the four real fields of a box to 6 decimal places. -/
def roundBox6 (b : YoloBox) : YoloBox :=
  ⟨b.classId, round6 b.x, round6 b.y, round6 b.w, round6 b.h⟩

/-- The accumulated `img_labels` rows for one image: the double loop over
`enumerate(use_parts)` and the part's contour index lists, appending one
normalized box per contour. -/
def imgLabels (table : List (String × List (List Nat)))
    (pts : List (ℚ × ℚ)) (imgH imgW : ℚ) : List YoloBox :=
  use_parts.enum.foldl
    (fun acc ip =>
      (lookupContours table ip.2).foldl
        (fun acc2 idxs => acc2 ++ [points_to_yolo (contourAt pts idxs) ip.1 imgH imgW])
        acc)
    []

/-- The row list persisted to the label file:
`img_labels.round(6).to_csv(..., header=False, index=False, sep=" ")`,
written once after the loops finish. -/
def labelFileRows (table : List (String × List (List Nat)))
    (pts : List (ℚ × ℚ)) (imgH imgW : ℚ) : List YoloBox :=
  (imgLabels table pts imgH imgW).map roundBox6

/-- The sequence of class ids a part table produces, in enumeration order. -/
def classIdSeq (table : List (String × List (List Nat))) : List Nat :=
  use_parts.enum.flatMap (fun ip => List.replicate (lookupContours table ip.2).length ip.1)

/-! Helen multi-face skip rule

`img_face_df` parses every Helen image name `"<img_id>_<face_id>.jpg"` into a
(group id, face index) pair; `face_counts` counts images per group;
`skip_imgs` keeps the rows whose group has `face_count > 1` or whose own
`face_id > 1`.  The processing loop handles only images not in `skip_imgs`,
and both manifests drop `skip_helen_ids`.  A Helen listing is modelled as the
parsed list of (group id, face index) pairs. -/

/-- The `face_counts` value: number of images sharing a numeric-prefix group id. -/
def faceCount (imgs : List (String × Nat)) (gid : String) : Nat :=
  (imgs.filter (fun p => p.1 == gid)).length

/-- The `skip_imgs` rows: those with a multi-image group or a face index above 1. -/
def skipImgs (imgs : List (String × Nat)) : List (String × Nat) :=
  imgs.filter (fun p => decide (1 < faceCount imgs p.1 ∨ 1 < p.2))

/-- The images the Helen pass processes and the manifests keep:
those not in `skip_imgs`. -/
def helenKept (imgs : List (String × Nat)) : List (String × Nat) :=
  imgs.filter (fun p => !decide (1 < faceCount imgs p.1 ∨ 1 < p.2))

/-! Train and val splitting

Pexels and AFW are split by `random.shuffle(names)` followed by
`names[:train_size]` / `names[train_size:]` with
`train_size = int(0.7 * len(names))`.  The slicing is modelled with the size
as a parameter `k`; `random.shuffle` permutes a list positionally, modelled
by applying an index permutation `pi`. -/

/-- The slices `names[:k]` and `names[k:]` — the train/val slices of the shuffled list. -/
def splitTrainVal (names : List String) (k : Nat) : List String × List String :=
  (names.take k, names.drop k)

/-- Positional application of a shuffle permutation: entry `i` of the output
is `l[pi[i]]` (`random.shuffle` rearranges positions independently of the
values stored). -/
def applyPerm (pi : List Nat) (l : List String) : List String :=
  pi.filterMap (fun i => l.get? i)

/-- The AFW split as a function of the order `ord` in which
`list(set(afw_names))` enumerates the name set, the length-determined shuffle
permutation `pi` of `random.shuffle` under seed 420, and the train size
`k = int(0.7 * len)`. -/
def afwSplitOf (pi : List Nat) (k : Nat) (ord : List String) :
    List String × List String :=
  splitTrainVal (applyPerm pi ord) k

/-! AFW group processing

For each AFW base name `n`, the loop `for i, img_name in
enumerate(grouped_images)` copies the face's image to the single destination
`{n}.jpg` (overwriting any previous copy), parses the face's `.pts` file as
`lines[3:-1]`, reads the image dimensions only when `i == 0`, and writes the
face's label rows to the single destination `{n}.txt` (again overwriting).
The fold below mirrors one group's iteration; what each destination file
holds after the loop is the fold's final state. -/

/-- One AFW face: its image (content and pixel dimensions) and the raw lines
of its `.pts` annotation file. -/
structure AfwFace where
  content : String
  imgH : ℚ
  imgW : ℚ
  ptsLines : List String
deriving DecidableEq, Repr

/-- The slice `lines[3:-1]`: drop the 3 header lines and the 1 footer line. -/
def parsePts (lines : List String) : List String := (lines.drop 3).dropLast

/-- State of one AFW group iteration: loop counter, the dimensions read at
`i == 0`, and the current contents of the two overwritten destination files
(the copied image, and the label's source — parsed points plus the
dimensions used to normalize them). -/
structure AfwGroupState where
  idx : Nat
  dimH : ℚ
  dimW : ℚ
  destImage : Option String
  destLabelSource : Option (List String × ℚ × ℚ)
deriving DecidableEq, Repr

/-- One iteration of the AFW group loop. -/
def afwStep (st : AfwGroupState) (face : AfwFace) : AfwGroupState :=
  let dimH := if st.idx = 0 then face.imgH else st.dimH
  let dimW := if st.idx = 0 then face.imgW else st.dimW
  { idx := st.idx + 1, dimH := dimH, dimW := dimW,
    destImage := some face.content,
    destLabelSource := some (parsePts face.ptsLines, dimH, dimW) }

/-- The whole group loop for one AFW base name. -/
def afwProcessGroup (group : List AfwFace) : AfwGroupState :=
  group.foldl afwStep ⟨0, 0, 0, none, none⟩

/-! LaPa cross-listing filter and name handling

LaPa's train listing is filtered by
`[f for f in split_images if not any([n in f for n in exclude_prefix])]`
with `exclude_prefix = ['HELEN_', 'IBUG_', 'AFW_', 'LFPW_']`; the val listing
is not filtered.  `n in f` is Python substring containment.  File names are
modelled as `List Char`. -/

/-- Whether `s` starts with `pat`. -/
def beginsWith : List Char → List Char → Bool
  | [], _ => true
  | _ :: _, [] => false
  | a :: as, b :: bs => a == b && beginsWith as bs

/-- Whether `pat` occurs as a contiguous substring of `s`
(Python's `pat in s`). -/
def hasSub (pat : List Char) : List Char → Bool
  | [] => beginsWith pat []
  | c :: rest => beginsWith pat (c :: rest) || hasSub pat rest

/-- The list `exclude_prefix = ['HELEN_', 'IBUG_', 'AFW_', 'LFPW_']`. -/
def excludePrefixes : List (List Char) :=
  ["HELEN_".toList, "IBUG_".toList, "AFW_".toList, "LFPW_".toList]

/-- The image list a LaPa split pass iterates: the train listing filtered by
the cross-listing markers, the val listing untouched. -/
def lapaSplitImages (split : String) (files : List (List Char)) :
    List (List Char) :=
  if split = "train" then
    files.filter (fun f => !(excludePrefixes.any (fun n => hasSub n f)))
  else files

/-- The stem `os.path.splitext(name)[0]`: the name up to its last dot (the whole name
when it has no dot). -/
def stemOf (s : List Char) : List Char :=
  match s.reverse.dropWhile (fun c => c != '.') with
  | [] => s
  | _ :: rest => rest.reverse

/-- The manifest name list a LaPa split pass accumulates: one
`os.path.splitext(img_name)[0]` per processed image. -/
def lapaManifestNames (split : String) (files : List (List Char)) :
    List (List Char) :=
  (lapaSplitImages split files).map stemOf

/-! Name sanitization

Only the Pexels pass cleans identifiers:
`file_name_cleaned = unidecode(os.path.splitext(l)[0])`.  The FASSEG pass
(like Helen, AFW, Menpo2D and LaPa) uses `os.path.splitext(l)[0]` verbatim as
the output image/label name. -/

/-- Modelled from the spec: the external `unidecode` call "normalized to
remove accented/non-ASCII characters"; modelled as keeping exactly the ASCII
characters of the name. -/
def unidecodeModel (s : List Char) : List Char :=
  s.filter (fun c => decide (c.toNat < 128))

/-- The output file stem the Pexels pass uses for a label file name `l`. -/
def pexelsOutputName (l : List Char) : List Char := unidecodeModel (stemOf l)

/-- The output file stem the FASSEG pass uses for a label file name `l`:
`file_name = os.path.splitext(l)[0]`, with no sanitization applied. -/
def fassegOutputName (l : List Char) : List Char := stemOf l

/-! Theorems

Helper lemmas first, then one theorem per verified property, with its
witness or counterexample instantiations. -/

lemma listMin_mem : ∀ (l : List ℚ), l ≠ [] → listMin l ∈ l
  | [], h => absurd rfl h
  | [a], _ => by simp [listMin]
  | a :: b :: rest, _ => by
      rcases min_choice a (listMin (b :: rest)) with h | h
      · simp [listMin, h]
      · have := listMin_mem (b :: rest) (by simp)
        simp [listMin, h, this]

lemma listMin_le : ∀ (l : List ℚ), ∀ a ∈ l, listMin l ≤ a
  | [], a, ha => by simp at ha
  | [b], a, ha => by
      simp at ha
      simp [listMin, ha]
  | b :: c :: rest, a, ha => by
      rcases List.mem_cons.mp ha with h | h
      · simp only [listMin, h]
        exact min_le_left _ _
      · have := listMin_le (c :: rest) a h
        simp only [listMin]
        exact le_trans (min_le_right _ _) this

lemma listMax_mem : ∀ (l : List ℚ), l ≠ [] → listMax l ∈ l
  | [], h => absurd rfl h
  | [a], _ => by simp [listMax]
  | a :: b :: rest, _ => by
      rcases max_choice a (listMax (b :: rest)) with h | h
      · simp [listMax, h]
      · have := listMax_mem (b :: rest) (by simp)
        simp [listMax, h, this]

lemma listMax_ge : ∀ (l : List ℚ), ∀ a ∈ l, a ≤ listMax l
  | [], a, ha => by simp at ha
  | [b], a, ha => by
      simp at ha
      simp [listMax, ha]
  | b :: c :: rest, a, ha => by
      rcases List.mem_cons.mp ha with h | h
      · simp only [listMax, h]
        exact le_max_left _ _
      · have := listMax_ge (c :: rest) a h
        simp only [listMax]
        exact le_trans this (le_max_right _ _)

/-- C1: for every nonempty contour, `points_to_yolo` returns the normalized
axis-aligned bounding box: there are attained coordinate extrema
`x_min ≤ · ≤ x_max`, `y_min ≤ · ≤ y_max` over the contour's points, and the
output equals `(class_id, (x_min+x_max)/2/W, (y_min+y_max)/2/H,
(x_max-x_min)/W, (y_max-y_min)/H)`. -/
theorem points_to_yolo_bbox (contour : List (ℚ × ℚ)) (classId : Nat)
    (H W : ℚ) (hc : contour ≠ []) :
    ∃ xmin xmax ymin ymax : ℚ,
      xmin ∈ contour.map Prod.fst ∧ (∀ a ∈ contour.map Prod.fst, xmin ≤ a) ∧
      xmax ∈ contour.map Prod.fst ∧ (∀ a ∈ contour.map Prod.fst, a ≤ xmax) ∧
      ymin ∈ contour.map Prod.snd ∧ (∀ a ∈ contour.map Prod.snd, ymin ≤ a) ∧
      ymax ∈ contour.map Prod.snd ∧ (∀ a ∈ contour.map Prod.snd, a ≤ ymax) ∧
      points_to_yolo contour classId H W =
        ⟨classId, (xmin + xmax) / 2 / W, (ymin + ymax) / 2 / H,
          (xmax - xmin) / W, (ymax - ymin) / H⟩ := by
  have hxs : contour.map Prod.fst ≠ [] := by
    simpa using hc
  have hys : contour.map Prod.snd ≠ [] := by
    simpa using hc
  exact ⟨listMin (contour.map Prod.fst), listMax (contour.map Prod.fst),
    listMin (contour.map Prod.snd), listMax (contour.map Prod.snd),
    listMin_mem _ hxs, listMin_le _,
    listMax_mem _ hxs, listMax_ge _,
    listMin_mem _ hys, listMin_le _,
    listMax_mem _ hys, listMax_ge _, rfl⟩

/-- C1 witness: the spec's worked example — contour
`[(10,10),(10,20),(20,20),(20,10)]` on a 100×200 image (W=100, H=200) yields
`x=0.15, y=0.075, w=0.10, h=0.05`. -/
theorem points_to_yolo_bbox_witness :
    ([((10 : ℚ), (10 : ℚ)), (10, 20), (20, 20), (20, 10)] ≠
        ([] : List (ℚ × ℚ))) ∧
    points_to_yolo [((10 : ℚ), (10 : ℚ)), (10, 20), (20, 20), (20, 10)] 0
        200 100 = ⟨0, 15/100, 15/200, 10/100, 10/200⟩ ∧
    (∃ xmin xmax ymin ymax : ℚ,
      xmin ∈ ([((10 : ℚ), (10 : ℚ)), (10, 20), (20, 20), (20, 10)]).map Prod.fst ∧
      (∀ a ∈ ([((10 : ℚ), (10 : ℚ)), (10, 20), (20, 20), (20, 10)]).map Prod.fst, xmin ≤ a) ∧
      xmax ∈ ([((10 : ℚ), (10 : ℚ)), (10, 20), (20, 20), (20, 10)]).map Prod.fst ∧
      (∀ a ∈ ([((10 : ℚ), (10 : ℚ)), (10, 20), (20, 20), (20, 10)]).map Prod.fst, a ≤ xmax) ∧
      ymin ∈ ([((10 : ℚ), (10 : ℚ)), (10, 20), (20, 20), (20, 10)]).map Prod.snd ∧
      (∀ a ∈ ([((10 : ℚ), (10 : ℚ)), (10, 20), (20, 20), (20, 10)]).map Prod.snd, ymin ≤ a) ∧
      ymax ∈ ([((10 : ℚ), (10 : ℚ)), (10, 20), (20, 20), (20, 10)]).map Prod.snd ∧
      (∀ a ∈ ([((10 : ℚ), (10 : ℚ)), (10, 20), (20, 20), (20, 10)]).map Prod.snd, a ≤ ymax) ∧
      points_to_yolo [((10 : ℚ), (10 : ℚ)), (10, 20), (20, 20), (20, 10)] 0 200 100 =
        ⟨0, (xmin + xmax) / 2 / 100, (ymin + ymax) / 2 / 200,
          (xmax - xmin) / 100, (ymax - ymin) / 200⟩) :=
  ⟨by decide, by norm_num [points_to_yolo, listMin, listMax],
    points_to_yolo_bbox [((10 : ℚ), (10 : ℚ)), (10, 20), (20, 20), (20, 10)] 0
      200 100 (by decide)⟩

/-- C2: every dataset pass enumerates the same `use_parts` list, so the class
ids are eye=0, nose=1, mouth=2, eyebrow=3 in all of them; "jaw" is a key of
every adapter's part table but is excluded from `use_parts`; and the
`names` mapping written to `data.yaml` is exactly this same mapping. -/
theorem class_ids_consistent :
    use_parts = ["eye", "nose", "mouth", "eyebrow"] ∧
    classIdOf "eye" = some 0 ∧ classIdOf "nose" = some 1 ∧
    classIdOf "mouth" = some 2 ∧ classIdOf "eyebrow" = some 3 ∧
    "jaw" ∈ part_points_helen.map Prod.fst ∧
    "jaw" ∈ part_points_afw.map Prod.fst ∧
    "jaw" ∈ part_points_menpo_profile.map Prod.fst ∧
    "jaw" ∈ part_points_lapa.map Prod.fst ∧
    "jaw" ∉ use_parts ∧
    (∀ p ∈ use_parts, p ∈ part_points_afw.map Prod.fst) ∧
    (∀ p ∈ use_parts, p ∈ part_points_menpo_profile.map Prod.fst) ∧
    (∀ p ∈ use_parts, p ∈ part_points_lapa.map Prod.fst) ∧
    dataYamlNames = [(0, "eye"), (1, "nose"), (2, "mouth"), (3, "eyebrow")] := by
  decide

lemma foldl_append_singleton {α β : Type} (f : α → β) :
    ∀ (l : List α) (acc : List β),
      l.foldl (fun a x => a ++ [f x]) acc = acc ++ l.map f
  | [], acc => by simp
  | x :: xs, acc => by
      simp [List.foldl_cons, foldl_append_singleton f xs]

lemma foldl_foldl_bind {α β γ : Type} (g : α → List β) (f : α → β → γ) :
    ∀ (l : List α) (acc : List γ),
      l.foldl (fun a x => (g x).foldl (fun a2 y => a2 ++ [f x y]) a) acc =
        acc ++ l.flatMap (fun x => (g x).map (f x))
  | [], acc => by simp
  | x :: xs, acc => by
      simp only [List.foldl_cons, List.flatMap_cons,
        foldl_foldl_bind g f xs, foldl_append_singleton (f x) (g x) acc]
      simp [List.append_assoc]

lemma imgLabels_eq_bind (table : List (String × List (List Nat)))
    (pts : List (ℚ × ℚ)) (imgH imgW : ℚ) :
    imgLabels table pts imgH imgW =
      use_parts.enum.flatMap (fun ip =>
        (lookupContours table ip.2).map
          (fun idxs => points_to_yolo (contourAt pts idxs) ip.1 imgH imgW)) := by
  simpa [imgLabels] using
    foldl_foldl_bind (fun ip => lookupContours table ip.2)
      (fun ip idxs => points_to_yolo (contourAt pts idxs) ip.1 imgH imgW)
      use_parts.enum []

lemma labelFileRows_eq_bind (table : List (String × List (List Nat)))
    (pts : List (ℚ × ℚ)) (imgH imgW : ℚ) :
    labelFileRows table pts imgH imgW =
      use_parts.enum.flatMap (fun ip =>
        (lookupContours table ip.2).map
          (fun idxs => roundBox6 (points_to_yolo (contourAt pts idxs) ip.1 imgH imgW))) := by
  simp [labelFileRows, imgLabels_eq_bind, List.map_flatMap, List.map_map,
    Function.comp_def]

lemma labelFileRows_classIds (table : List (String × List (List Nat)))
    (pts : List (ℚ × ℚ)) (imgH imgW : ℚ) :
    (labelFileRows table pts imgH imgW).map YoloBox.classId = classIdSeq table := by
  rw [labelFileRows_eq_bind, classIdSeq, List.map_flatMap]
  refine congrArg _ (funext fun ip => ?_)
  rw [List.map_map]
  have : (YoloBox.classId ∘ fun idxs =>
      roundBox6 (points_to_yolo (contourAt pts idxs) ip.1 imgH imgW)) =
      (fun _ => ip.1) := by
    funext idxs
    rfl
  rw [this, List.map_const']

/-- C7: the persisted label rows are exactly one row per contour instance of
the part table, in `enumerate(use_parts)` class-enumeration order, each row
being the contour's normalized box with all four real values rounded to 6
decimal places; the row list is the completed double-loop accumulation (the
file content is a function of all of the image's boxes, written once). -/
theorem label_file_rows_spec (table : List (String × List (List Nat)))
    (pts : List (ℚ × ℚ)) (imgH imgW : ℚ) :
    labelFileRows table pts imgH imgW =
      use_parts.enum.flatMap (fun ip =>
        (lookupContours table ip.2).map
          (fun idxs => roundBox6 (points_to_yolo (contourAt pts idxs) ip.1 imgH imgW))) ∧
    (labelFileRows table pts imgH imgW).length =
      (use_parts.flatMap (fun pn => lookupContours table pn)).length ∧
    (labelFileRows table pts imgH imgW).map YoloBox.classId = classIdSeq table := by
  refine ⟨labelFileRows_eq_bind table pts imgH imgW, ?_, labelFileRows_classIds table pts imgH imgW⟩
  rw [labelFileRows_eq_bind]
  simp only [List.length_flatMap, Function.comp_def, List.length_map]
  refine congrArg List.sum ?_
  have h2 : (fun ip : Nat × String => (lookupContours table ip.2).length) =
      ((fun pn => (lookupContours table pn).length) ∘ Prod.snd) := rfl
  rw [h2, ← List.map_map, List.enum_map_snd]

/-- C10: the label row count and class-id sequence are fixed by the part
table: 6 rows with ids (0,0,1,2,3,3) for Helen, AFW, Menpo2D semifrontal
(whose table is `part_points_afw` itself) and LaPa, and 4 rows with ids
(0,1,2,3) for Menpo2D profile images. -/
theorem label_rows_fixed_by_table (pts : List (ℚ × ℚ)) (imgH imgW : ℚ) :
    ((labelFileRows part_points_helen pts imgH imgW).map YoloBox.classId =
        [0, 0, 1, 2, 3, 3] ∧
      (labelFileRows part_points_helen pts imgH imgW).length = 6) ∧
    ((labelFileRows part_points_afw pts imgH imgW).map YoloBox.classId =
        [0, 0, 1, 2, 3, 3] ∧
      (labelFileRows part_points_afw pts imgH imgW).length = 6) ∧
    ((labelFileRows part_points_lapa pts imgH imgW).map YoloBox.classId =
        [0, 0, 1, 2, 3, 3] ∧
      (labelFileRows part_points_lapa pts imgH imgW).length = 6) ∧
    ((labelFileRows part_points_menpo_profile pts imgH imgW).map YoloBox.classId =
        [0, 1, 2, 3] ∧
      (labelFileRows part_points_menpo_profile pts imgH imgW).length = 4) := by
  have hlen : ∀ table, (labelFileRows table pts imgH imgW).length =
      ((labelFileRows table pts imgH imgW).map YoloBox.classId).length := by
    intro table
    rw [List.length_map]
  refine ⟨⟨?_, ?_⟩, ⟨?_, ?_⟩, ⟨?_, ?_⟩, ⟨?_, ?_⟩⟩ <;>
    first
      | (rw [labelFileRows_classIds]; decide)
      | (rw [hlen, labelFileRows_classIds]; decide)

/-- C3: a Helen image is skipped exactly when its numeric-prefix group holds
more than one face image or its own face index exceeds 1; in a multi-image
group every member — the primary face included — is skipped and none is
kept. -/
theorem helen_skip_rule (imgs : List (String × Nat)) (p : String × Nat)
    (hp : p ∈ imgs) :
    (p ∈ skipImgs imgs ↔ 1 < faceCount imgs p.1 ∨ 1 < p.2) ∧
    (p ∈ helenKept imgs ↔ faceCount imgs p.1 ≤ 1 ∧ p.2 ≤ 1) ∧
    (1 < faceCount imgs p.1 → p ∈ skipImgs imgs ∧ p ∉ helenKept imgs) := by
  have hskip : p ∈ skipImgs imgs ↔ 1 < faceCount imgs p.1 ∨ 1 < p.2 := by
    simp [skipImgs, List.mem_filter, hp]
  have hkeep : p ∈ helenKept imgs ↔ faceCount imgs p.1 ≤ 1 ∧ p.2 ≤ 1 := by
    simp only [helenKept, List.mem_filter, hp, true_and, Bool.not_eq_true',
      decide_eq_false_iff_not, not_or, not_lt]
  refine ⟨hskip, hkeep, fun hmulti => ⟨hskip.mpr (Or.inl hmulti), ?_⟩⟩
  intro hmem
  exact absurd hmulti (not_lt.mpr (hkeep.mp hmem).1)

/-- C3 witness: a 10-image Helen listing in which 3 images share the
multi-face group "a" — all three are skipped (the primary `("a",1)`
included), the other 7 are kept, so exactly 7 images are output. -/
theorem helen_skip_rule_witness :
    (("a", 1) ∈ [("a", 1), ("a", 2), ("a", 3), ("b", 1), ("c", 1), ("d", 1),
        ("e", 1), ("f", 1), ("g", 1), ("h", 1)]) ∧
    (1 < faceCount [("a", 1), ("a", 2), ("a", 3), ("b", 1), ("c", 1), ("d", 1),
        ("e", 1), ("f", 1), ("g", 1), ("h", 1)] "a" →
      ("a", 1) ∈ skipImgs [("a", 1), ("a", 2), ("a", 3), ("b", 1), ("c", 1),
        ("d", 1), ("e", 1), ("f", 1), ("g", 1), ("h", 1)] ∧
      ("a", 1) ∉ helenKept [("a", 1), ("a", 2), ("a", 3), ("b", 1), ("c", 1),
        ("d", 1), ("e", 1), ("f", 1), ("g", 1), ("h", 1)]) ∧
    (helenKept [("a", 1), ("a", 2), ("a", 3), ("b", 1), ("c", 1), ("d", 1),
        ("e", 1), ("f", 1), ("g", 1), ("h", 1)]).length = 7 ∧
    (skipImgs [("a", 1), ("a", 2), ("a", 3), ("b", 1), ("c", 1), ("d", 1),
        ("e", 1), ("f", 1), ("g", 1), ("h", 1)]).length = 3 :=
  ⟨by decide,
    (helen_skip_rule [("a", 1), ("a", 2), ("a", 3), ("b", 1), ("c", 1),
      ("d", 1), ("e", 1), ("f", 1), ("g", 1), ("h", 1)] ("a", 1)
      (by decide)).2.2,
    by decide, by decide⟩

/-- C5 counterexample: the claim fails when the shuffled name list carries a
duplicate identifier (possible for Pexels, whose name list concatenates the
unidecoded label stems of several sub-collections without deduplication):
with shuffled list `["a", "a"]` and `train_size = int(0.7*2) = 1`, the
identifier `"a"` appears in both the train slice and the val slice. -/
theorem split_overlap_on_duplicate :
    "a" ∈ (splitTrainVal ["a", "a"] 1).1 ∧
    "a" ∈ (splitTrainVal ["a", "a"] 1).2 := by
  decide

/-- C5 (amended): whenever the shuffled name list has no duplicate
identifier, the train slice `names[:k]` and the val slice `names[k:]` are
disjoint — no identifier appears in both.  AFW's list always qualifies (it is
enumerated from a Python set); Pexels' does whenever its cleaned names are
pairwise distinct. -/
theorem split_disjoint_of_nodup (names : List String) (k : Nat)
    (h : names.Nodup) :
    ∀ x ∈ (splitTrainVal names k).1, x ∉ (splitTrainVal names k).2 := by
  intro x hx hx'
  exact (List.disjoint_take_drop h le_rfl) hx hx'

/-- C5 witness: the nodup list `["a", "b", "c"]` split at
`k = int(0.7*3) = 2` has disjoint slices. -/
theorem split_disjoint_of_nodup_witness :
    (["a", "b", "c"] : List String).Nodup ∧
    ∀ x ∈ (splitTrainVal ["a", "b", "c"] 2).1,
      x ∉ (splitTrainVal ["a", "b", "c"] 2).2 :=
  ⟨by decide, split_disjoint_of_nodup ["a", "b", "c"] 2 (by decide)⟩

/-- C4: the AFW train/val assignment is NOT a function of the input tree:
`afw_names = list(set(...))` enumerates a Python set, whose order is
hash-randomization dependent, and the subsequent seeded shuffle is positional.
For every shuffle permutation `pi` of the two positions, the two enumerations
`["1", "2"]` and `["2", "1"]` of the same name set produce different
train/val splits (`train_size = int(0.7*2) = 1`). -/
theorem afw_split_depends_on_set_order (pi : List Nat)
    (h : pi.Perm [0, 1]) :
    (["1", "2"] : List String).Perm ["2", "1"] ∧
    afwSplitOf pi 1 ["1", "2"] ≠ afwSplitOf pi 1 ["2", "1"] := by
  refine ⟨by decide, ?_⟩
  have h01 : pi = [0, 1] ∨ pi = [1, 0] := by
    have hlen : pi.length = 2 := h.length_eq
    match pi, hlen with
    | [a, b], _ =>
      have ha : a = 0 ∨ a = 1 := by
        have := h.subset (List.mem_cons_self a [b])
        simpa using this
      have hb : b = 0 ∨ b = 1 := by
        have := h.subset (show b ∈ [a, b] by simp)
        simpa using this
      have hnd : ([a, b] : List Nat).Nodup := h.symm.nodup (by decide)
      have hab : a ≠ b := by
        simp only [List.nodup_cons, List.mem_singleton] at hnd
        exact hnd.1
      rcases ha with rfl | rfl <;> rcases hb with rfl | rfl <;>
        simp_all
  rcases h01 with rfl | rfl <;> decide

/-- C4 witness: the identity permutation of the two positions is a
permutation of `[0, 1]`, and instantiating the theorem with it exhibits the
two differing splits. -/
theorem afw_split_depends_on_set_order_witness :
    (([0, 1] : List Nat).Perm [0, 1]) ∧
    ((["1", "2"] : List String).Perm ["2", "1"] ∧
      afwSplitOf [0, 1] 1 ["1", "2"] ≠ afwSplitOf [0, 1] 1 ["2", "1"]) :=
  ⟨by decide, afw_split_depends_on_set_order [0, 1] (by decide)⟩

lemma afwStep_pos (st : AfwGroupState) (face : AfwFace) (h : st.idx ≠ 0) :
    afwStep st face =
      ⟨st.idx + 1, st.dimH, st.dimW, some face.content,
        some (parsePts face.ptsLines, st.dimH, st.dimW)⟩ := by
  simp [afwStep, h]

lemma afwFoldl_last : ∀ (gs : List AfwFace) (gl : AfwFace) (st : AfwGroupState),
    st.idx ≠ 0 → gs.getLast? = some gl →
    gs.foldl afwStep st =
      ⟨st.idx + gs.length, st.dimH, st.dimW, some gl.content,
        some (parsePts gl.ptsLines, st.dimH, st.dimW)⟩
  | [], gl, st, _, hgl => by simp at hgl
  | [g], gl, st, hid, hgl => by
      simp only [List.getLast?_singleton, Option.some.injEq] at hgl
      subst hgl
      simp [List.foldl_cons, afwStep_pos st g hid]
  | g :: g' :: gs', gl, st, hid, hgl => by
      have hgl' : (g' :: gs').getLast? = some gl := by
        simpa [List.getLast?_cons_cons] using hgl
      have hrec := afwFoldl_last (g' :: gs') gl
        ⟨st.idx + 1, st.dimH, st.dimW, some g.content,
          some (parsePts g.ptsLines, st.dimH, st.dimW)⟩
        (by simp) hgl'
      simp only [List.foldl_cons, afwStep_pos st g hid, hrec]
      refine congrArg (fun k => AfwGroupState.mk k st.dimH st.dimW
        (some gl.content) (some (parsePts gl.ptsLines, st.dimH, st.dimW))) ?_
      simp [List.length_cons]
      omega

/-- C6 counterexample: the claim says only the FIRST detected face's image is
kept as `{prefix}.jpg`, but every face's image is copied to that destination
in turn, so the last one wins: for a two-face group whose images differ, the
destination holds the second face's image, not the first's. -/
theorem afw_keeps_last_not_first :
    (afwProcessGroup [⟨"img-face1", 5, 5, ["h1", "h2", "h3", "p1", "f"]⟩,
        ⟨"img-face2", 7, 9, ["h1", "h2", "h3", "p2", "f"]⟩]).destImage =
      some "img-face2" ∧
    some "img-face2" ≠ some "img-face1" := by
  constructor
  · rfl
  · decide

/-- C6 (amended): for every nonempty AFW group, every face's image is copied
to the single destination `{prefix}.jpg`, so the LAST detected face's image
is the one kept; each face's point file is parsed as `lines[3:-1]` (3 header
lines and 1 footer line dropped — for a file of 3 header lines, a body and
one footer line the parse returns exactly the body); and the final label
file is derived from the last face's points, normalized with the FIRST
face's image dimensions (read only at `i == 0`). -/
theorem afw_group_processing (g0 : AfwFace) (gs : List AfwFace)
    (header body : List String) (footer : String)
    (hh : header.length = 3) :
    (afwProcessGroup (g0 :: gs)).destImage =
      some (gs.getLast?.getD g0).content ∧
    (afwProcessGroup (g0 :: gs)).destLabelSource =
      some (parsePts (gs.getLast?.getD g0).ptsLines, g0.imgH, g0.imgW) ∧
    parsePts (header ++ body ++ [footer]) = body := by
  have hparse : parsePts (header ++ body ++ [footer]) = body := by
    have h0 : header.drop 3 = [] := by
      rw [← hh]
      exact List.drop_length header
    simp only [parsePts, List.append_assoc,
      List.drop_append_of_le_length (le_of_eq hh.symm), h0, List.nil_append]
    simp
  have hstep0 : afwStep ⟨0, 0, 0, none, none⟩ g0 =
      ⟨1, g0.imgH, g0.imgW, some g0.content,
        some (parsePts g0.ptsLines, g0.imgH, g0.imgW)⟩ := by
    simp [afwStep]
  cases hgs : gs.getLast? with
  | none =>
      have hnil : gs = [] := List.getLast?_eq_none_iff.mp hgs
      subst hnil
      refine ⟨?_, ?_, hparse⟩ <;>
        simp [afwProcessGroup, hstep0]
  | some gl =>
      have hfold := afwFoldl_last gs gl
        ⟨1, g0.imgH, g0.imgW, some g0.content,
          some (parsePts g0.ptsLines, g0.imgH, g0.imgW)⟩ (by simp) hgs
      refine ⟨?_, ?_, hparse⟩ <;>
        simp [afwProcessGroup, hstep0, hfold]

/-- C6 witness: the amended statement instantiated at a concrete two-face
group and a concrete 3-header/1-footer points file. -/
theorem afw_group_processing_witness :
    ((["v1", "v2", "v3"] : List String).length = 3) ∧
    ((afwProcessGroup [⟨"imgA", 11, 13, ["h1", "h2", "h3", "pA", "f"]⟩,
        ⟨"imgB", 17, 19, ["h1", "h2", "h3", "pB", "f"]⟩]).destImage =
      some ([⟨"imgB", 17, 19, ["h1", "h2", "h3", "pB", "f"]⟩].getLast?.getD
        (⟨"imgA", 11, 13, ["h1", "h2", "h3", "pA", "f"]⟩ : AfwFace)).content ∧
    (afwProcessGroup [⟨"imgA", 11, 13, ["h1", "h2", "h3", "pA", "f"]⟩,
        ⟨"imgB", 17, 19, ["h1", "h2", "h3", "pB", "f"]⟩]).destLabelSource =
      some (parsePts ([⟨"imgB", 17, 19, ["h1", "h2", "h3", "pB", "f"]⟩].getLast?.getD
        (⟨"imgA", 11, 13, ["h1", "h2", "h3", "pA", "f"]⟩ : AfwFace)).ptsLines,
        (11 : ℚ), (13 : ℚ)) ∧
    parsePts (["v1", "v2", "v3"] ++ ["b1", "b2"] ++ ["foot"]) = ["b1", "b2"]) :=
  ⟨by decide,
    afw_group_processing ⟨"imgA", 11, 13, ["h1", "h2", "h3", "pA", "f"]⟩
      [⟨"imgB", 17, 19, ["h1", "h2", "h3", "pB", "f"]⟩]
      ["v1", "v2", "v3"] ["b1", "b2"] "foot" (by decide)⟩

lemma beginsWith_imp_hasSub (pat : List Char) :
    ∀ s : List Char, beginsWith pat s = true → hasSub pat s = true
  | [], h => h
  | _ :: _, h => by
      simp only [hasSub, Bool.or_eq_true]
      exact Or.inl h

/-- C8: a LaPa training-split file whose name starts with one of the
cross-listing markers `HELEN_ IBUG_ AFW_ LFPW_` is excluded from processing;
every name in the train manifest comes from a file containing none of the
markers; and the validation split is passed through unfiltered. -/
theorem lapa_excludes_crosslisted (files : List (List Char))
    (f p : List Char) (hp : p ∈ excludePrefixes)
    (hpre : beginsWith p f = true) :
    f ∉ lapaSplitImages "train" files ∧
    (∀ nm ∈ lapaManifestNames "train" files,
      ∃ g ∈ files, nm = stemOf g ∧
        ∀ q ∈ excludePrefixes, hasSub q g = false) ∧
    lapaSplitImages "val" files = files := by
  have htr : lapaSplitImages "train" files =
      files.filter (fun f => !(excludePrefixes.any (fun n => hasSub n f))) := by
    simp [lapaSplitImages]
  refine ⟨?_, ?_, ?_⟩
  · intro hmem
    rw [htr, List.mem_filter] at hmem
    have hany : excludePrefixes.any (fun n => hasSub n f) = true :=
      List.any_eq_true.mpr ⟨p, hp, beginsWith_imp_hasSub p f hpre⟩
    rw [hany] at hmem
    exact absurd hmem.2 (by decide)
  · intro nm hnm
    rw [lapaManifestNames, htr, List.mem_map] at hnm
    obtain ⟨g, hg, rfl⟩ := hnm
    rw [List.mem_filter] at hg
    refine ⟨g, hg.1, rfl, fun q hq => ?_⟩
    have := hg.2
    simp only [Bool.not_eq_true', List.any_eq_false] at this
    exact Bool.eq_false_iff.mpr (this q hq)
  · simp [lapaSplitImages]

/-- C8 witness: instantiated at a two-file train listing in which
`AFW_1.jpg` carries the marker `AFW_` and `x.jpg` carries none. -/
theorem lapa_excludes_crosslisted_witness :
    ("AFW_".toList ∈ excludePrefixes) ∧
    (beginsWith "AFW_".toList "AFW_1.jpg".toList = true) ∧
    ("AFW_1.jpg".toList ∉
        lapaSplitImages "train" ["AFW_1.jpg".toList, "x.jpg".toList] ∧
      (∀ nm ∈ lapaManifestNames "train" ["AFW_1.jpg".toList, "x.jpg".toList],
        ∃ g ∈ ["AFW_1.jpg".toList, "x.jpg".toList], nm = stemOf g ∧
          ∀ q ∈ excludePrefixes, hasSub q g = false) ∧
      lapaSplitImages "val" ["AFW_1.jpg".toList, "x.jpg".toList] =
        ["AFW_1.jpg".toList, "x.jpg".toList]) :=
  ⟨by decide, by decide,
    lapa_excludes_crosslisted ["AFW_1.jpg".toList, "x.jpg".toList]
      "AFW_1.jpg".toList "AFW_".toList (by decide) (by decide)⟩

/-- C9 counterexample: the FASSEG pass writes the identifier verbatim — for
the label file `café.txt` the output stem is `café`, which still contains the
non-ASCII character `é`, contradicting the claim that every source dataset's
identifiers are stripped of accented/non-ASCII characters. -/
theorem fasseg_name_keeps_nonascii :
    fassegOutputName "café.txt".toList = "café".toList ∧
    ¬ (∀ c ∈ fassegOutputName "café.txt".toList, c.toNat < 128) := by
  decide

/-- C9 (amended): only the Pexels pass sanitizes identifiers — its output
stems are `unidecode` of the label stem and contain only ASCII characters
(every ASCII character of the stem is kept) — while the FASSEG pass (like the
other datasets) uses the label stem verbatim. -/
theorem name_sanitization_pexels_only (l : List Char) :
    pexelsOutputName l = unidecodeModel (stemOf l) ∧
    (∀ c ∈ pexelsOutputName l, c.toNat < 128) ∧
    (∀ c ∈ stemOf l, c.toNat < 128 → c ∈ pexelsOutputName l) ∧
    fassegOutputName l = stemOf l := by
  refine ⟨rfl, ?_, ?_, rfl⟩
  · intro c hc
    have := (List.mem_filter.mp hc).2
    simpa using this
  · intro c hc hascii
    exact List.mem_filter.mpr ⟨hc, by simpa using hascii⟩

end FaceParts

